import Mathlib

/-
Verification of the admission-controlled job queue of the InfiniteTalk API
(api/queue_manager.py, driven by api/app.py).

Embedding notes.

In the Python source every job is one mutable dict, created in
app.generate_video and then shared by reference between the four structures
of QueueManager: the pending deque `_queue`, the dicts `_processing`,
`_completed` and `_all_requests`.  All mutations go through that single
shared object, so the embedding keeps exactly one record per identifier in
`all_requests` (the registry) and represents `_queue`, `_processing` and
`_completed` by the lists of identifiers they hold.  Dict writes become
`dict_set`, dict deletes become `list_remove`, and dict key order
(insertion order) is preserved.

Timestamps: the code calls time.time(); every mutating operation here takes
the current time as an explicit `now : Int` argument.  The record fields
image_path / audio_path / prompt / timestamp carried by the submission dict
are claim-irrelevant and are collapsed into the single `payload` field.

`remove_request` is embedded together with the exception it raises and the
type corruption its executed statements leave behind — both persist, because
the endpoint catches the exception and the module-level QueueManager keeps
serving.  Its first statement always rebinds `_queue` from a deque to a
plain list, tracked here by the `queue_is_list` flag: a later popleft on it
raises AttributeError, so `get_next_item` raises and every later scheduling
pass aborts without mutating anything.  Its last statement iterates the
dict `_all_requests` as if it held the record dicts; iterating a dict
yields its string keys, so `key["request_id"]` raises TypeError whenever
the dict is non-empty (after the queue / processing / completed mutations
have already happened), while on an empty registry the comprehension
succeeds and rebinds `_all_requests` to a plain empty list, tracked by the
`all_requests_is_list` flag: the next registry write, in `add_to_queue`
line 42, then raises TypeError after the queue append of line 41 has
already happened.  Once `_all_requests` is a list it is provably always
the empty list (no write to it ever succeeds again), so the embedding keeps
representing its content as the empty map; Python's `get_request_status`
would additionally raise AttributeError calling .get on it, which is noted
at that definition.  Fallible operations return an `Except` carrying the
returned value or the exception, paired with the state they leave behind.
-/

structure Request where
  request_id : String
  payload : String := ""
  status : String := ""
  queued_at : Option Int := none
  started_at : Option Int := none
  completed_at : Option Int := none
  failed_at : Option Int := none
  last_updated : Option Int := none
  message : Option String := none
  result_url : Option String := none
  error : Option String := none
  deriving Repr, DecidableEq

structure QueueManager where
  max_queue_size : Nat
  max_concurrent : Nat
  queue : List String
  queue_is_list : Bool
  processing : List String
  completed : List String
  all_requests : List (String × Request)
  all_requests_is_list : Bool
  deriving Repr, DecidableEq

/-- Python dict read: first binding for the key, if any. -/
def dict_lookup (m : List (String × Request)) (k : String) : Option Request :=
  match m with
  | [] => none
  | (k1, v) :: rest => if k1 = k then some v else dict_lookup rest k

/-- Python dict write `m[k] = v`: overwrite in place, else append (insertion order). -/
def dict_set (m : List (String × Request)) (k : String) (v : Request) :
    List (String × Request) :=
  match m with
  | [] => [(k, v)]
  | (k1, v1) :: rest => if k1 = k then (k, v) :: rest else (k1, v1) :: dict_set rest k v

/-- Python dict delete `del d[k]` / `d.pop(k)` on an identifier set. -/
def list_remove (l : List String) (k : String) : List String :=
  match l with
  | [] => []
  | x :: rest => if x = k then rest else x :: list_remove rest k

/-- Python dict write `d[k] = item` viewed on the key set: keys keep their
position, a new key goes to the back. -/
def list_insert (l : List String) (k : String) : List String :=
  if k ∈ l then l else l ++ [k]

/-- QueueManager.__init__ : empty structures, configured limits, a genuine
deque and a genuine dict. -/
def QueueManager.init (max_queue_size max_concurrent : Nat) : QueueManager :=
  { max_queue_size := max_queue_size, max_concurrent := max_concurrent,
    queue := [], queue_is_list := false, processing := [], completed := [],
    all_requests := [], all_requests_is_list := false }

/-- QueueManager.add_to_queue : reject when `len(_queue) >= max_queue_size`
(line 35, before any mutation), otherwise stamp the item as queued, append
it to the queue (line 41, an operation that works on deque and plain list
alike) and write it into the registry (line 42).  When remove_request has
rebound `_all_requests` to a plain list, the registry write `l[str] = item`
raises TypeError — after the queue append has already happened, so the
queue keeps an identifier the registry never learns about. -/
def QueueManager.add_to_queue (s : QueueManager) (request_item : Request) (now : Int) :
    Except String Bool × QueueManager :=
  if s.max_queue_size ≤ s.queue.length then (Except.ok false, s)
  else
    let request_item :=
      { request_item with queued_at := some now, status := "queued" }
    let s1 := { s with queue := s.queue ++ [request_item.request_id] }
    if s.all_requests_is_list then
      (Except.error "TypeError: list indices must be integers or slices, not str", s1)
    else
      (Except.ok true,
        { s1 with
          all_requests := dict_set s.all_requests request_item.request_id request_item })

/-- QueueManager.get_next_item : `if self._queue:` (truthiness works on deque
and list alike) then popleft.  After remove_request has rebound `_queue` to
a plain list, popleft raises AttributeError before any mutation. -/
def QueueManager.get_next_item (s : QueueManager) :
    Except String (Option String) × QueueManager :=
  match s.queue with
  | [] => (Except.ok none, s)
  | id :: rest =>
    if s.queue_is_list then
      (Except.error "AttributeError: list object has no attribute popleft", s)
    else
      (Except.ok (some id), { s with queue := rest })

/-- QueueManager.start_processing : refuse when the gate is full, otherwise
mark the registry record as processing and add the id to the processing
dict.  The record mutated is the registry record (the shared object). -/
def QueueManager.start_processing (s : QueueManager) (request_id : String) (now : Int) :
    Bool × QueueManager :=
  if s.max_concurrent ≤ s.processing.length then (false, s)
  else
    match dict_lookup s.all_requests request_id with
    | some request_item =>
      let request_item :=
        { request_item with status := "processing", started_at := some now }
      (true,
        { s with
          all_requests := dict_set s.all_requests request_id request_item,
          processing := list_insert s.processing request_id })
    | none => (false, s)

/-- QueueManager.complete_request : pop from processing, stamp the record
completed with the result url, file it under completed and the registry.
The popped record is the registry record (shared object); the `none` arm is
unreachable in reachable states, where every processing id has a registry
record. -/
def QueueManager.complete_request (s : QueueManager) (request_id : String)
    (result_url : Option String) (now : Int) : QueueManager :=
  if request_id ∈ s.processing then
    match dict_lookup s.all_requests request_id with
    | some request_item =>
      let request_item :=
        { request_item with
          status := "completed", completed_at := some now, result_url := result_url }
      { s with
        processing := list_remove s.processing request_id,
        completed := list_insert s.completed request_id,
        all_requests := dict_set s.all_requests request_id request_item }
    | none => s
  else s

/-- QueueManager.fail_request : pop from processing, stamp the record failed
with the error message, file it under completed and the registry. -/
def QueueManager.fail_request (s : QueueManager) (request_id : String)
    (error_message : String) (now : Int) : QueueManager :=
  if request_id ∈ s.processing then
    match dict_lookup s.all_requests request_id with
    | some request_item =>
      let request_item :=
        { request_item with
          status := "failed", error := some error_message, failed_at := some now }
      { s with
        processing := list_remove s.processing request_id,
        completed := list_insert s.completed request_id,
        all_requests := dict_set s.all_requests request_id request_item }
    | none => s
  else s

/-- QueueManager.update_request_status : for any id present in the registry,
overwrite status and message and refresh last_updated; there is no guard on
the current status.  The second write the code performs on the `_processing`
copy touches the same shared object and changes no membership, so it is
invisible in this representation. -/
def QueueManager.update_request_status (s : QueueManager) (request_id status message : String)
    (now : Int) : QueueManager :=
  match dict_lookup s.all_requests request_id with
  | some request_item =>
    { s with
      all_requests :=
        dict_set s.all_requests request_id
          { request_item with
            status := status, message := some message, last_updated := some now } }
  | none => s

/-- QueueManager.get_request_status : registry lookup.  When the registry has
been rebound to a plain list by remove_request it is provably always the
empty list, and this definition reads its (empty) content; the Python method
would additionally raise AttributeError calling .get on the list. -/
def QueueManager.get_request_status (s : QueueManager) (request_id : String) :
    Option Request :=
  dict_lookup s.all_requests request_id

/-- QueueManager.get_queue_size. -/
def QueueManager.get_queue_size (s : QueueManager) : Nat :=
  s.queue.length

/-- QueueManager.get_processing_count. -/
def QueueManager.get_processing_count (s : QueueManager) : Nat :=
  s.processing.length

/-- QueueManager.can_start_processing :
`len(_processing) < max_concurrent and len(_queue) > 0`. -/
def QueueManager.can_start_processing (s : QueueManager) : Bool :=
  decide (s.processing.length < s.max_concurrent) && decide (0 < s.queue.length)

/-- Loop of QueueManager.get_queue_position : scan the queue, returning the
1-based index of the first match. -/
def queue_position_aux : List String → String → Nat → Option Nat
  | [], _, _ => none
  | x :: rest, id, i => if x = id then some (i + 1) else queue_position_aux rest id (i + 1)

/-- QueueManager.get_queue_position : 1-based position in the queue, None if
absent. -/
def QueueManager.get_queue_position (s : QueueManager) (request_id : String) : Option Nat :=
  queue_position_aux s.queue request_id 0

/-- QueueManager.get_estimated_wait_time : position times the static
3.5-minute (210 s) estimate, bucketed into seconds / whole minutes /
hours-and-minutes.  All Python float arithmetic here is on exact integers
and int() truncation of non-negative values is Nat division. -/
def QueueManager.get_estimated_wait_time (s : QueueManager) (request_id : String) :
    Option String :=
  match s.get_queue_position request_id with
  | none => none
  | some position =>
    let avg_processing_time : Nat := 210
    let estimated_seconds := position * avg_processing_time
    if estimated_seconds < 60 then some (toString estimated_seconds ++ " seconds")
    else if estimated_seconds < 3600 then
      some (toString (estimated_seconds / 60) ++ " minutes")
    else
      some (toString (estimated_seconds / 3600) ++ "h "
        ++ toString (estimated_seconds % 3600 / 60) ++ "m")

/-- The expression `request_item.get("completed_at") or request_item.get("failed_at", 0)`
from cleanup_old_requests; Python `or` falls through when the left side is
None or the (falsy) number 0. -/
def finished_time (request_item : Request) : Int :=
  match request_item.completed_at with
  | some t => if t ≠ 0 then t else request_item.failed_at.getD 0
  | none => request_item.failed_at.getD 0

/-- Collection pass of QueueManager.cleanup_old_requests : the completed/failed
ids whose finish time is older than `now - max_age_hours*3600`.  The record
consulted is the shared registry record; the `none` arm is unreachable in
reachable states, where every completed id has a registry record. -/
def cleanup_to_remove (s : QueueManager) (now max_age_hours : Int) : List String :=
  s.completed.filter (fun id =>
    match dict_lookup s.all_requests id with
    | some request_item =>
      decide (finished_time request_item < now - max_age_hours * 3600)
    | none => false)

/-- Removal pass of cleanup_old_requests: pop every collected id from the
completed dict and the registry. -/
def QueueManager.cleanup_old_requests (s : QueueManager) (now max_age_hours : Int) :
    QueueManager :=
  let to_remove := cleanup_to_remove s now max_age_hours
  { s with
    completed := s.completed.filter (fun id => !(decide (id ∈ to_remove))),
    all_requests := s.all_requests.filter (fun p => !(decide (p.1 ∈ to_remove))) }

/-- QueueManager.remove_request, faithfully including its exception and its
type corruption: line 210 filters the queue and rebinds it from a deque to
a plain list (queue_is_list set), lines 213-220 pop the id from processing
and completed with the `removed` flag set only by those two pops, and then
line 223 iterates the dict `_all_requests`, whose iteration yields string
keys, so indexing the key with "request_id" raises TypeError unless the
dict is empty — the earlier mutations persist past the raise.  On an empty
registry the comprehension succeeds and rebinds `_all_requests` to a plain
empty list (all_requests_is_list set). -/
def QueueManager.remove_request (s : QueueManager) (request_id : String) :
    Except String Bool × QueueManager :=
  let s1 := { s with
    queue := s.queue.filter (fun x => x != request_id), queue_is_list := true }
  let r2 :=
    if request_id ∈ s1.processing then
      (true, { s1 with processing := list_remove s1.processing request_id })
    else (false, s1)
  let r3 :=
    if request_id ∈ r2.2.completed then
      (true, { r2.2 with completed := list_remove r2.2.completed request_id })
    else (r2.1, r2.2)
  if r3.2.all_requests.isEmpty then
    (Except.ok r3.1, { r3.2 with all_requests_is_list := true })
  else (Except.error "TypeError: string indices must be integers", r3.2)

/-- One iteration budget per initially queued item; each pass of
app.process_queue consumes one queue element, so the fuel
`s.queue.length` makes this exactly the source's while loop.  When
get_next_item raises (queue rebound to a list by remove_request) the
exception propagates out of the loop: the pass ends with the state
unchanged by that iteration. -/
def process_queue_aux : Nat → QueueManager → Int → QueueManager
  | 0, s, _ => s
  | fuel + 1, s, now =>
    if s.can_start_processing then
      match s.get_next_item with
      | (Except.ok (some id), s1) =>
        process_queue_aux fuel (s1.start_processing id now).2 now
      | (Except.ok none, _) => s
      | (Except.error _, _) => s
    else s

/-- app.process_queue : while a slot is free and the queue is non-empty, pop
the head and start it (the broadcasts and the spawned process_video task do
not touch the queue state); an AttributeError from the corrupted queue
aborts the pass without mutating anything. -/
def process_queue (s : QueueManager) (now : Int) : QueueManager :=
  process_queue_aux s.queue.length s now

/-- Status of an identifier as recorded in the registry. -/
def status_of (s : QueueManager) (id : String) : Option String :=
  (s.get_request_status id).map Request.status

/-
The transition relation of the system, as app.py drives the queue manager:

* submit      — app.generate_video: a fresh uuid4 identifier is generated for
                every submission, so the submitted id is neither in the
                registry nor (even after a registry-corrupting remove, which
                can leave unregistered ids in the queue) in the queue;
* promote     — app.process_queue, invoked after submissions and after each
                terminal outcome;
* complete    — QueueManager.complete_request (executor success);
* fail        — QueueManager.fail_request (executor failure or exception);
* progress    — QueueManager.update_request_status: its only call site,
                app.process_video line 304, runs for the job the scheduler
                has just started and always passes status "processing", so
                the stepped id is in the processing set;
* cleanup     — QueueManager.cleanup_old_requests;
* remove      — QueueManager.remove_request, driven by app.delete_result
                (the DELETE endpoint) with an arbitrary identifier: the
                TypeError it raises is caught at the endpoint (app.py line
                249, answered as a 500), but the mutations its executed
                statements made — queue filtered and rebound to a list,
                processing/completed deletions, and on the empty-registry
                path the registry rebound to a list — persist in the
                module-level singleton, so the post-exception state is
                reachable.
-/
inductive Step : QueueManager → QueueManager → Prop where
  | submit (s : QueueManager) (item : Request) (now : Int)
      (fresh : item.request_id ∉ s.queue ∧
        dict_lookup s.all_requests item.request_id = none) :
      Step s (s.add_to_queue item now).2
  | promote (s : QueueManager) (now : Int) :
      Step s (process_queue s now)
  | complete (s : QueueManager) (id : String) (result_url : Option String) (now : Int) :
      Step s (s.complete_request id result_url now)
  | fail (s : QueueManager) (id : String) (error_message : String) (now : Int) :
      Step s (s.fail_request id error_message now)
  | progress (s : QueueManager) (id : String) (message : String) (now : Int)
      (hid : id ∈ s.processing) :
      Step s (s.update_request_status id "processing" message now)
  | cleanup (s : QueueManager) (now max_age_hours : Int) :
      Step s (s.cleanup_old_requests now max_age_hours)
  | remove (s : QueueManager) (id : String) :
      Step s (s.remove_request id).2

/-- States reachable from a freshly constructed QueueManager. -/
inductive Reachable : QueueManager → Prop where
  | init (max_queue_size max_concurrent : Nat) :
      Reachable (QueueManager.init max_queue_size max_concurrent)
  | step {s s' : QueueManager} (h : Reachable s) (hs : Step s s') : Reachable s'

/-- The state invariant that survives the full transition system, including
the partially-mutating remove_request: bounded, duplicate-free collections;
registry corruption implies queue corruption, an empty registry and an
empty running set; and the status facts that deletions cannot break —
queued ids have queued records while the registry is intact, running ids
always have processing records, completed-dict ids always have terminal
records.  The converses (a processing-status record is in the running set,
a terminal record is in the completed dict) are NOT invariant: remove
deletes the memberships and leaves the records, which is exactly the C2 and
C8 findings. -/
structure StateInv (s : QueueManager) : Prop where
  queue_le : s.queue.length ≤ s.max_queue_size
  queue_nodup : s.queue.Nodup
  proc_le : s.processing.length ≤ s.max_concurrent
  proc_nodup : s.processing.Nodup
  comp_nodup : s.completed.Nodup
  flag_impl : s.all_requests_is_list = true →
    s.queue_is_list = true ∧ s.all_requests = [] ∧ s.processing = []
  queue_status : s.all_requests_is_list = false →
    ∀ id, id ∈ s.queue → status_of s id = some "queued"
  proc_status : ∀ id, id ∈ s.processing → status_of s id = some "processing"
  comp_status : ∀ id, id ∈ s.completed →
    status_of s id = some "completed" ∨ status_of s id = some "failed"

/-- Concrete submissions used by the witness states. -/
def item_a : Request := { request_id := "a", payload := "payload-a", status := "queued" }

/-- Second concrete submission. -/
def item_b : Request := { request_id := "b", payload := "payload-b", status := "queued" }

/-- A QueueManager of capacity 1 holding one queued job: at capacity. -/
def qm_full : QueueManager := ((QueueManager.init 1 1).add_to_queue item_a 0).2

/-- One job queued. -/
def qm_a : QueueManager := ((QueueManager.init 20 3).add_to_queue item_a 0).2

/-- Two jobs queued, submitted in the order a then b. -/
def qm_ab : QueueManager := (qm_a.add_to_queue item_b 0).2

/-- Job a promoted to running at time 0. -/
def qm_run : QueueManager := process_queue qm_a 0

/-- Job b submitted while a runs. -/
def qm_run_b : QueueManager := (qm_run.add_to_queue item_b 0).2

/-- Both jobs running (the gate holds 3 slots). -/
def qm_run2 : QueueManager := process_queue qm_run_b 0

/-- Job a completed at time 3600 while b keeps running. -/
def qm_done : QueueManager := qm_run2.complete_request "a" (some "/api/result/a") 3600

/-- The DELETE endpoint called on the running job a: remove_request deletes a
from the processing dict, rebinds the queue to a plain list, then raises;
the registry keeps a's record with status processing. -/
def qm_rm_run : QueueManager := (qm_run.remove_request "a").2

/-- Job b submitted after that remove: the submission succeeds (the registry
is still a dict), but the queue is now a plain list, so no scheduling pass
can ever promote b. -/
def qm_rm_run_b : QueueManager := (qm_rm_run.add_to_queue item_b 10).2

/-- The DELETE endpoint called on the completed job a: remove_request deletes
a from the completed dict, then raises; the registry keeps a's terminal
record, which cleanup can no longer see. -/
def qm_rm_done : QueueManager := (qm_done.remove_request "a").2

/-- The DELETE endpoint called on an unknown id while nothing was ever
submitted: the registry is empty, so remove_request does not raise but
rebinds both the queue and the registry to plain lists. -/
def qm_corrupt : QueueManager := ((QueueManager.init 20 3).remove_request "zz").2

/-- A submission after that corruption: the queue append succeeds, then the
registry write raises TypeError, leaving a queued identifier the registry
does not know. -/
def qm_corrupt_a : QueueManager := (qm_corrupt.add_to_queue item_a 0).2

theorem dict_lookup_dict_set_self (m : List (String × Request)) (k : String) (v : Request) :
    dict_lookup (dict_set m k v) k = some v := by
  induction m with
  | nil => simp [dict_set, dict_lookup]
  | cons p rest ih =>
    obtain ⟨k1, v1⟩ := p
    by_cases h : k1 = k
    · simp [dict_set, h, dict_lookup]
    · simp [dict_set, h, dict_lookup, ih]

theorem dict_lookup_dict_set_ne (m : List (String × Request)) {k k' : String} (v : Request)
    (h : k' ≠ k) : dict_lookup (dict_set m k v) k' = dict_lookup m k' := by
  induction m with
  | nil => simp [dict_set, dict_lookup, Ne.symm h]
  | cons p rest ih =>
    obtain ⟨k1, v1⟩ := p
    by_cases hk : k1 = k
    · subst hk
      simp [dict_set, dict_lookup, Ne.symm h]
    · by_cases hk' : k1 = k'
      · simp [dict_set, hk, dict_lookup, hk', h]
      · simp [dict_set, hk, dict_lookup, hk', ih]

theorem dict_lookup_filter_keys (m : List (String × Request)) (f : String → Bool)
    (k : String) :
    dict_lookup (m.filter (fun p => f p.1)) k =
      if f k then dict_lookup m k else none := by
  induction m with
  | nil => simp [dict_lookup]
  | cons p rest ih =>
    obtain ⟨k1, v1⟩ := p
    by_cases hk : k1 = k
    · subst hk
      by_cases hf : f k1
      · simp [List.filter_cons, hf, dict_lookup]
      · simp [List.filter_cons, hf, dict_lookup, ih]
    · by_cases hf : f k1
      · simp [List.filter_cons, hf, dict_lookup, hk, ih]
      · simp [List.filter_cons, hf, dict_lookup, hk, ih]

theorem mem_of_mem_list_remove {l : List String} {a b : String}
    (h : a ∈ list_remove l b) : a ∈ l := by
  induction l with
  | nil => simp [list_remove] at h
  | cons x rest ih =>
    by_cases hx : x = b
    · subst hx
      simp [list_remove] at h
      exact List.mem_cons_of_mem _ h
    · simp [list_remove, hx, List.mem_cons] at h
      rcases h with h | h
      · exact h ▸ List.mem_cons_self _ _
      · exact List.mem_cons_of_mem _ (ih h)

theorem mem_list_remove_of_ne {l : List String} {a b : String} (h : a ≠ b) :
    a ∈ list_remove l b ↔ a ∈ l := by
  induction l with
  | nil => simp [list_remove]
  | cons x rest ih =>
    by_cases hx : x = b
    · subst hx
      simp [list_remove, List.mem_cons, h]
    · simp [list_remove, hx, List.mem_cons, ih]

theorem not_mem_list_remove_self {l : List String} (h : l.Nodup) (a : String) :
    a ∉ list_remove l a := by
  induction l with
  | nil => simp [list_remove]
  | cons x rest ih =>
    rw [List.nodup_cons] at h
    by_cases hx : x = a
    · subst hx
      simpa [list_remove] using h.1
    · simp only [list_remove, if_neg hx, List.mem_cons]
      rintro (rfl | hmem)
      · exact hx rfl
      · exact ih h.2 hmem

theorem nodup_list_remove {l : List String} (h : l.Nodup) (a : String) :
    (list_remove l a).Nodup := by
  induction l with
  | nil => simp [list_remove]
  | cons x rest ih =>
    rw [List.nodup_cons] at h
    by_cases hx : x = a
    · subst hx
      simpa [list_remove] using h.2
    · rw [list_remove, if_neg hx, List.nodup_cons]
      exact ⟨fun hc => h.1 (mem_of_mem_list_remove hc), ih h.2⟩

theorem length_list_remove_le (l : List String) (a : String) :
    (list_remove l a).length ≤ l.length := by
  induction l with
  | nil => simp [list_remove]
  | cons x rest ih =>
    by_cases hx : x = a
    · subst hx
      simp [list_remove]
    · simp only [list_remove, if_neg hx, List.length_cons]
      omega

theorem list_remove_append_self {l : List String} {a : String} (h : a ∉ l) :
    list_remove (l ++ [a]) a = l := by
  induction l with
  | nil => simp [list_remove]
  | cons x rest ih =>
    simp only [List.mem_cons, not_or] at h
    simp only [List.cons_append, list_remove, if_neg (Ne.symm h.1)]
    exact congrArg (fun t => x :: t) (ih h.2)

theorem mem_list_insert {l : List String} {a b : String} :
    a ∈ list_insert l b ↔ a ∈ l ∨ a = b := by
  by_cases hb : b ∈ l
  · simp only [list_insert, if_pos hb]
    constructor
    · exact Or.inl
    · rintro (h | rfl)
      · exact h
      · exact hb
  · simp [list_insert, hb]

theorem list_insert_of_not_mem {l : List String} {b : String} (h : b ∉ l) :
    list_insert l b = l ++ [b] := by
  simp [list_insert, h]

theorem nodup_list_insert {l : List String} (h : l.Nodup) (b : String) :
    (list_insert l b).Nodup := by
  by_cases hb : b ∈ l
  · simpa [list_insert, hb] using h
  · rw [list_insert_of_not_mem hb]
    exact List.Nodup.append h (List.nodup_singleton b)
      (by intro x hx hxb; simp at hxb; exact hb (hxb ▸ hx))

theorem length_list_insert_le (l : List String) (b : String) :
    (list_insert l b).length ≤ l.length + 1 := by
  by_cases hb : b ∈ l
  · simp [list_insert, hb]
  · simp [list_insert, hb]

theorem queue_position_aux_none {l : List String} {a : String} (h : a ∉ l) (i : Nat) :
    queue_position_aux l a i = none := by
  induction l generalizing i with
  | nil => simp [queue_position_aux]
  | cons x rest ih =>
    simp only [List.mem_cons, not_or] at h
    simp only [queue_position_aux, if_neg (Ne.symm h.1)]
    exact ih h.2 (i + 1)

theorem queue_position_aux_mem {l : List String} {a : String} (h : a ∈ l) (i : Nat) :
    ∃ p, queue_position_aux l a i = some p ∧ i < p := by
  induction l generalizing i with
  | nil => simp at h
  | cons x rest ih =>
    by_cases hx : x = a
    · exact ⟨i + 1, by simp [queue_position_aux, hx], by omega⟩
    · have ha : a ∈ rest := by
        rcases List.mem_cons.mp h with rfl | hm
        · exact absurd rfl hx
        · exact hm
      obtain ⟨p, hp, hlt⟩ := ih ha (i + 1)
      exact ⟨p, by simp [queue_position_aux, hx, hp], by omega⟩

theorem queue_position_aux_indexOf {l : List String} {a : String} (h : a ∈ l) (i : Nat) :
    queue_position_aux l a i = some (i + l.indexOf a + 1) := by
  induction l generalizing i with
  | nil => simp at h
  | cons x rest ih =>
    by_cases hx : x = a
    · subst hx
      simp [queue_position_aux, List.indexOf_cons_self]
    · have ha : a ∈ rest := by
        rcases List.mem_cons.mp h with rfl | hm
        · exact absurd rfl hx
        · exact hm
      rw [queue_position_aux, if_neg hx, ih ha (i + 1),
        List.indexOf_cons_ne _ (fun e => hx e)]
      congr 1
      omega

theorem queue_position_aux_sublist_lt {l : List String} (h : l.Nodup) {a b : String}
    (hs : [a, b].Sublist l) (i : Nat) :
    ∃ pa pb, queue_position_aux l a i = some pa ∧
      queue_position_aux l b i = some pb ∧ pa < pb := by
  induction l generalizing i with
  | nil => simp at hs
  | cons x rest ih =>
    rw [List.nodup_cons] at h
    cases hs with
    | cons _ hs' =>
      have ha : a ∈ rest := hs'.subset (by simp)
      have hb : b ∈ rest := hs'.subset (by simp)
      have hxa : x ≠ a := fun e => h.1 (e ▸ ha)
      have hxb : x ≠ b := fun e => h.1 (e ▸ hb)
      obtain ⟨pa, pb, h1, h2, h3⟩ := ih h.2 hs' (i + 1)
      exact ⟨pa, pb, by simp [queue_position_aux, hxa, h1],
        by simp [queue_position_aux, hxb, h2], h3⟩
    | cons₂ _ hs' =>
      have hb : b ∈ rest := hs'.subset (by simp)
      have hab : a ≠ b := fun e => h.1 (e ▸ hb)
      obtain ⟨pb, h2, hlt⟩ := queue_position_aux_mem hb (i + 1)
      exact ⟨i + 1, pb, by simp [queue_position_aux],
        by simp [queue_position_aux, hab, h2], by omega⟩

theorem sublist_pair_drop {l : List String} (h : l.Nodup) {a b : String}
    (hs : [a, b].Sublist l) (n : Nat) (ha : a ∈ l.drop n) :
    [a, b].Sublist (l.drop n) := by
  induction n generalizing l with
  | zero => exact hs
  | succ n ih =>
    cases l with
    | nil => simp at ha
    | cons x rest =>
      rw [List.drop_succ_cons] at ha ⊢
      rw [List.nodup_cons] at h
      have haa : a ∈ rest := (List.drop_subset n rest) ha
      have hax : x ≠ a := fun e => h.1 (e ▸ haa)
      have hs' : [a, b].Sublist rest := by
        cases hs with
        | cons _ h2 => exact h2
        | cons₂ _ h2 => exact absurd rfl hax
      exact ih h.2 hs' ha

theorem start_processing_queue (s : QueueManager) (id : String) (now : Int) :
    (s.start_processing id now).2.queue = s.queue := by
  unfold QueueManager.start_processing
  split
  · rfl
  · split <;> rfl

theorem start_processing_completed (s : QueueManager) (id : String) (now : Int) :
    (s.start_processing id now).2.completed = s.completed := by
  unfold QueueManager.start_processing
  split
  · rfl
  · split <;> rfl

theorem start_processing_max_queue_size (s : QueueManager) (id : String) (now : Int) :
    (s.start_processing id now).2.max_queue_size = s.max_queue_size := by
  unfold QueueManager.start_processing
  split
  · rfl
  · split <;> rfl

theorem start_processing_max_concurrent (s : QueueManager) (id : String) (now : Int) :
    (s.start_processing id now).2.max_concurrent = s.max_concurrent := by
  unfold QueueManager.start_processing
  split
  · rfl
  · split <;> rfl

theorem dict_lookup_filter_not_mem (m : List (String × Request)) (R : List String)
    (k : String) :
    dict_lookup (m.filter (fun p => !(decide (p.1 ∈ R)))) k =
      if k ∈ R then none else dict_lookup m k := by
  induction m with
  | nil => by_cases hk : k ∈ R <;> simp [dict_lookup, hk]
  | cons p rest ih =>
    obtain ⟨k1, v1⟩ := p
    by_cases h1 : k1 ∈ R
    · by_cases hk : k1 = k
      · subst hk
        simp [List.filter_cons, h1, ih, dict_lookup]
      · simp [List.filter_cons, h1, ih, dict_lookup, hk]
    · by_cases hk : k1 = k
      · subst hk
        simp [List.filter_cons, h1, dict_lookup]
      · simp [List.filter_cons, h1, dict_lookup, hk, ih]

theorem add_to_queue_reject {s : QueueManager} (item : Request) (now : Int)
    (hcap : s.max_queue_size ≤ s.queue.length) :
    s.add_to_queue item now = (Except.ok false, s) := by
  simp [QueueManager.add_to_queue, hcap]

theorem add_to_queue_accept {s : QueueManager} (item : Request) (now : Int)
    (hcap : s.queue.length < s.max_queue_size)
    (hflag : s.all_requests_is_list = false) :
    s.add_to_queue item now =
      (Except.ok true,
        { s with
          queue := s.queue ++ [item.request_id],
          all_requests := dict_set s.all_requests item.request_id
            { item with queued_at := some now, status := "queued" } }) := by
  have hcap' : ¬ s.max_queue_size ≤ s.queue.length := by omega
  simp [QueueManager.add_to_queue, hcap', hflag]

theorem add_to_queue_corrupt {s : QueueManager} (item : Request) (now : Int)
    (hcap : s.queue.length < s.max_queue_size)
    (hflag : s.all_requests_is_list = true) :
    s.add_to_queue item now =
      (Except.error "TypeError: list indices must be integers or slices, not str",
        { s with queue := s.queue ++ [item.request_id] }) := by
  have hcap' : ¬ s.max_queue_size ≤ s.queue.length := by omega
  simp [QueueManager.add_to_queue, hcap', hflag]

theorem get_next_item_cons {s : QueueManager} {hd : String} {rest : List String}
    (hq : s.queue = hd :: rest) (hlist : s.queue_is_list = false) :
    s.get_next_item = (Except.ok (some hd), { s with queue := rest }) := by
  simp [QueueManager.get_next_item, hq, hlist]

theorem get_next_item_err {s : QueueManager} {hd : String} {rest : List String}
    (hq : s.queue = hd :: rest) (hlist : s.queue_is_list = true) :
    s.get_next_item =
      (Except.error "AttributeError: list object has no attribute popleft", s) := by
  simp [QueueManager.get_next_item, hq, hlist]

theorem start_processing_queue_is_list (s : QueueManager) (id : String) (now : Int) :
    (s.start_processing id now).2.queue_is_list = s.queue_is_list := by
  unfold QueueManager.start_processing
  split
  · rfl
  · split <;> rfl

theorem start_processing_flag (s : QueueManager) (id : String) (now : Int) :
    (s.start_processing id now).2.all_requests_is_list = s.all_requests_is_list := by
  unfold QueueManager.start_processing
  split
  · rfl
  · split <;> rfl

theorem start_processing_eq {s : QueueManager} {id : String} (now : Int) {r : Request}
    (hcap : s.processing.length < s.max_concurrent)
    (hr : dict_lookup s.all_requests id = some r) :
    s.start_processing id now =
      (true,
        { s with
          all_requests := dict_set s.all_requests id
            { r with status := "processing", started_at := some now },
          processing := list_insert s.processing id }) := by
  have hcap' : ¬ s.max_concurrent ≤ s.processing.length := by omega
  simp [QueueManager.start_processing, hcap', hr]

theorem complete_request_eq {s : QueueManager} {id : String} (url : Option String)
    (now : Int) {r : Request} (hmem : id ∈ s.processing)
    (hr : dict_lookup s.all_requests id = some r) :
    s.complete_request id url now =
      { s with
        processing := list_remove s.processing id,
        completed := list_insert s.completed id,
        all_requests := dict_set s.all_requests id
          { r with status := "completed", completed_at := some now, result_url := url } } := by
  simp [QueueManager.complete_request, hmem, hr]

theorem complete_request_not_mem {s : QueueManager} {id : String} (url : Option String)
    (now : Int) (hmem : id ∉ s.processing) :
    s.complete_request id url now = s := by
  simp [QueueManager.complete_request, hmem]

theorem fail_request_eq {s : QueueManager} {id : String} (err : String) (now : Int)
    {r : Request} (hmem : id ∈ s.processing)
    (hr : dict_lookup s.all_requests id = some r) :
    s.fail_request id err now =
      { s with
        processing := list_remove s.processing id,
        completed := list_insert s.completed id,
        all_requests := dict_set s.all_requests id
          { r with status := "failed", error := some err, failed_at := some now } } := by
  simp [QueueManager.fail_request, hmem, hr]

theorem fail_request_not_mem {s : QueueManager} {id : String} (err : String) (now : Int)
    (hmem : id ∉ s.processing) :
    s.fail_request id err now = s := by
  simp [QueueManager.fail_request, hmem]

theorem update_request_status_eq {s : QueueManager} {id : String} (st msg : String)
    (now : Int) {r : Request} (hr : dict_lookup s.all_requests id = some r) :
    s.update_request_status id st msg now =
      { s with
        all_requests := dict_set s.all_requests id
          { r with status := st, message := some msg, last_updated := some now } } := by
  simp [QueueManager.update_request_status, hr]

theorem update_request_status_missing {s : QueueManager} {id : String} (st msg : String)
    (now : Int) (hr : dict_lookup s.all_requests id = none) :
    s.update_request_status id st msg now = s := by
  simp [QueueManager.update_request_status, hr]

theorem mem_cleanup_to_remove {s : QueueManager} {now age : Int} {id : String} :
    id ∈ cleanup_to_remove s now age ↔
      id ∈ s.completed ∧
        ∃ r, dict_lookup s.all_requests id = some r ∧
          finished_time r < now - age * 3600 := by
  simp only [cleanup_to_remove, List.mem_filter]
  cases h : dict_lookup s.all_requests id <;> simp [h]

theorem cleanup_queue (s : QueueManager) (now age : Int) :
    (s.cleanup_old_requests now age).queue = s.queue := rfl

theorem cleanup_processing (s : QueueManager) (now age : Int) :
    (s.cleanup_old_requests now age).processing = s.processing := rfl

theorem mem_cleanup_completed {s : QueueManager} {now age : Int} {id : String} :
    id ∈ (s.cleanup_old_requests now age).completed ↔
      id ∈ s.completed ∧ id ∉ cleanup_to_remove s now age := by
  simp [QueueManager.cleanup_old_requests, List.mem_filter]

theorem status_of_cleanup (s : QueueManager) (now age : Int) (id : String) :
    status_of (s.cleanup_old_requests now age) id =
      if id ∈ cleanup_to_remove s now age then none else status_of s id := by
  simp only [QueueManager.cleanup_old_requests, status_of, QueueManager.get_request_status]
  rw [dict_lookup_filter_not_mem]
  by_cases h : id ∈ cleanup_to_remove s now age <;> simp [h]

theorem remove_request_snd (s : QueueManager) (id : String) :
    (s.remove_request id).2 =
      { s with
        queue := s.queue.filter (fun x => x != id),
        queue_is_list := true,
        processing :=
          if id ∈ s.processing then list_remove s.processing id else s.processing,
        completed :=
          if id ∈ s.completed then list_remove s.completed id else s.completed,
        all_requests_is_list :=
          if s.all_requests.isEmpty = true then true else s.all_requests_is_list } := by
  unfold QueueManager.remove_request
  by_cases h1 : id ∈ s.processing <;> by_cases h2 : id ∈ s.completed <;>
    by_cases h3 : s.all_requests.isEmpty <;>
    simp [h1, h2, h3]

theorem remove_request_queue (s : QueueManager) (id : String) :
    (s.remove_request id).2.queue = s.queue.filter (fun x => x != id) := by
  rw [remove_request_snd]

theorem remove_request_all_requests (s : QueueManager) (id : String) :
    (s.remove_request id).2.all_requests = s.all_requests := by
  rw [remove_request_snd]

theorem status_of_remove (s : QueueManager) (id id2 : String) :
    status_of (s.remove_request id).2 id2 = status_of s id2 := by
  simp [status_of, QueueManager.get_request_status, remove_request_all_requests]

theorem inv_add_to_queue {s : QueueManager} (item : Request) (now : Int)
    (hinv : StateInv s)
    (fresh : item.request_id ∉ s.queue ∧
      dict_lookup s.all_requests item.request_id = none) :
    StateInv (s.add_to_queue item now).2 := by
  by_cases hcap : s.max_queue_size ≤ s.queue.length
  · rw [add_to_queue_reject item now hcap]
    exact hinv
  · have hcap' : s.queue.length < s.max_queue_size := by omega
    have hst : status_of s item.request_id = none := by
      simp [status_of, QueueManager.get_request_status, fresh.2]
    have hnotp : item.request_id ∉ s.processing := by
      intro hmem
      have h := hinv.proc_status _ hmem
      rw [hst] at h
      exact Option.noConfusion h
    have hnotc : item.request_id ∉ s.completed := by
      intro hmem
      have h := hinv.comp_status _ hmem
      rcases h with h | h <;> (rw [hst] at h; exact Option.noConfusion h)
    by_cases hflag : s.all_requests_is_list
    · rw [add_to_queue_corrupt item now hcap' hflag]
      obtain ⟨hql, hreg, hproc⟩ := hinv.flag_impl hflag
      refine ⟨?_, ?_, hinv.proc_le, hinv.proc_nodup, hinv.comp_nodup, ?_, ?_, ?_, ?_⟩
      · simp only [List.length_append, List.length_cons, List.length_nil]
        omega
      · exact List.Nodup.append hinv.queue_nodup (List.nodup_singleton _)
          (by intro x hx hxs; simp at hxs; subst hxs; exact fresh.1 hx)
      · intro _
        exact ⟨hql, hreg, hproc⟩
      · intro hf
        have hc : s.all_requests_is_list = false := hf
        rw [hflag] at hc
        exact Bool.noConfusion hc
      · intro id hid
        exact hinv.proc_status id hid
      · intro id hid
        exact hinv.comp_status id hid
    · have hflag' : s.all_requests_is_list = false := by simpa using hflag
      rw [add_to_queue_accept item now hcap' hflag']
      have hstatus : ∀ id, status_of
          { s with
            queue := s.queue ++ [item.request_id],
            all_requests := dict_set s.all_requests item.request_id
              { item with queued_at := some now, status := "queued" } } id =
          if id = item.request_id then some "queued" else status_of s id := by
        intro id
        by_cases hid : id = item.request_id
        · subst hid
          simp [status_of, QueueManager.get_request_status, dict_lookup_dict_set_self]
        · simp [status_of, QueueManager.get_request_status,
            dict_lookup_dict_set_ne _ _ hid, hid]
      refine ⟨?_, ?_, hinv.proc_le, hinv.proc_nodup, hinv.comp_nodup, ?_, ?_, ?_, ?_⟩
      · simp only [List.length_append, List.length_cons, List.length_nil]
        omega
      · exact List.Nodup.append hinv.queue_nodup (List.nodup_singleton _)
          (by intro x hx hxs; simp at hxs; subst hxs; exact fresh.1 hx)
      · intro hf
        have hc : s.all_requests_is_list = true := hf
        rw [hflag'] at hc
        exact Bool.noConfusion hc
      · intro _ id hid
        rw [hstatus id]
        rcases List.mem_append.mp hid with hmem | hmem
        · have hne : id ≠ item.request_id := fun e => fresh.1 (e ▸ hmem)
          rw [if_neg hne]
          exact hinv.queue_status hflag' id hmem
        · simp only [List.mem_singleton] at hmem
          rw [if_pos hmem]
      · intro id hid
        rw [hstatus id]
        have hne : id ≠ item.request_id := fun e => hnotp (e ▸ hid)
        rw [if_neg hne]
        exact hinv.proc_status id hid
      · intro id hid
        rw [hstatus id]
        have hne : id ≠ item.request_id := fun e => hnotc (e ▸ hid)
        rw [if_neg hne]
        exact hinv.comp_status id hid

theorem promote_iter_spec {s : QueueManager} {hd : String} {rest : List String} (now : Int)
    (hinv : StateInv s) (hproc : s.processing.length < s.max_concurrent)
    (hq : s.queue = hd :: rest) (hlist : s.queue_is_list = false) :
    StateInv ({ s with queue := rest }.start_processing hd now).2 ∧
      ∀ id, status_of ({ s with queue := rest }.start_processing hd now).2 id =
        if id = hd then some "processing" else status_of s id := by
  have hflag : s.all_requests_is_list = false := by
    by_cases hf : s.all_requests_is_list
    · exact absurd ((hinv.flag_impl hf).1)
        (fun h => Bool.noConfusion (h.symm.trans hlist))
    · simpa using hf
  have hmemq : hd ∈ s.queue := by
    rw [hq]
    exact List.mem_cons_self _ _
  have hstq : status_of s hd = some "queued" := hinv.queue_status hflag hd hmemq
  obtain ⟨r, hr, hrstat⟩ :
      ∃ r, dict_lookup s.all_requests hd = some r ∧ r.status = "queued" := by
    simpa [status_of, QueueManager.get_request_status, Option.map_eq_some'] using hstq
  have hnotp : hd ∉ s.processing := by
    intro hmem
    have h := hinv.proc_status hd hmem
    rw [hstq] at h
    exact absurd (Option.some.inj h.symm) (by decide)
  have hnotc : hd ∉ s.completed := by
    intro hmem
    have h := hinv.comp_status hd hmem
    rcases h with h | h <;>
      (rw [hstq] at h; exact absurd (Option.some.inj h.symm) (by decide))
  have hnodup_rest : rest.Nodup := by
    have h := hinv.queue_nodup
    rw [hq, List.nodup_cons] at h
    exact h.2
  have hhd_rest : hd ∉ rest := by
    have h := hinv.queue_nodup
    rw [hq, List.nodup_cons] at h
    exact h.1
  have heq : { s with queue := rest }.start_processing hd now =
      (true,
        { s with
          queue := rest,
          all_requests := dict_set s.all_requests hd
            { r with status := "processing", started_at := some now },
          processing := list_insert s.processing hd }) := by
    have hcap' : ¬ s.max_concurrent ≤ s.processing.length := by omega
    simp [QueueManager.start_processing, hcap', hr]
  rw [heq]
  dsimp only
  have hstatus : ∀ id, status_of
      { s with
        queue := rest,
        all_requests := dict_set s.all_requests hd
          { r with status := "processing", started_at := some now },
        processing := list_insert s.processing hd } id =
      if id = hd then some "processing" else status_of s id := by
    intro id
    by_cases hid : id = hd
    · subst hid
      simp [status_of, QueueManager.get_request_status, dict_lookup_dict_set_self]
    · simp [status_of, QueueManager.get_request_status,
        dict_lookup_dict_set_ne _ _ hid, hid]
  refine ⟨⟨?_, hnodup_rest, ?_, ?_, hinv.comp_nodup, ?_, ?_, ?_, ?_⟩, hstatus⟩
  · show rest.length ≤ s.max_queue_size
    have h := hinv.queue_le
    rw [hq] at h
    simp only [List.length_cons] at h
    omega
  · show (list_insert s.processing hd).length ≤ s.max_concurrent
    calc (list_insert s.processing hd).length ≤ s.processing.length + 1 :=
        length_list_insert_le _ _
      _ ≤ s.max_concurrent := by omega
  · exact nodup_list_insert hinv.proc_nodup _
  · intro hf
    have hc : s.all_requests_is_list = true := hf
    rw [hflag] at hc
    exact Bool.noConfusion hc
  · intro _ id hid
    have hne : id ≠ hd := fun e => hhd_rest (e ▸ hid)
    rw [hstatus id, if_neg hne]
    exact hinv.queue_status hflag id (by rw [hq]; exact List.mem_cons_of_mem _ hid)
  · intro id hid
    rw [hstatus id]
    by_cases hid' : id = hd
    · subst hid'
      rw [if_pos rfl]
    · rw [if_neg hid']
      rcases mem_list_insert.mp hid with h | h
      · exact hinv.proc_status id h
      · exact absurd h hid'
  · intro id hid
    rw [hstatus id]
    have hne : id ≠ hd := fun e => hnotc (e ▸ hid)
    rw [if_neg hne]
    exact hinv.comp_status id hid

theorem inv_process_queue_aux (fuel : Nat) (now : Int) :
    ∀ s : QueueManager, StateInv s → StateInv (process_queue_aux fuel s now) := by
  induction fuel with
  | zero =>
    intro s hinv
    exact hinv
  | succ fuel ih =>
    intro s hinv
    by_cases hcan : s.can_start_processing
    · have hcan' := hcan
      simp only [QueueManager.can_start_processing, Bool.and_eq_true,
        decide_eq_true_eq] at hcan'
      obtain ⟨hproc, hq0⟩ := hcan'
      cases hq : s.queue with
      | nil =>
        rw [hq] at hq0
        simp at hq0
      | cons hd rest =>
        by_cases hlist : s.queue_is_list
        · simp only [process_queue_aux]
          rw [if_pos hcan, get_next_item_err hq hlist]
          exact hinv
        · have hlist' : s.queue_is_list = false := by simpa using hlist
          simp only [process_queue_aux]
          rw [if_pos hcan, get_next_item_cons hq hlist']
          exact ih _ (promote_iter_spec now hinv hproc hq hlist').1
    · simp only [process_queue_aux]
      rw [if_neg hcan]
      exact hinv

theorem status_process_queue_aux (fuel : Nat) (now : Int) :
    ∀ s : QueueManager, StateInv s → ∀ id,
      status_of (process_queue_aux fuel s now) id = status_of s id ∨
        (status_of s id = some "queued" ∧
          status_of (process_queue_aux fuel s now) id = some "processing") := by
  induction fuel with
  | zero =>
    intro s hinv id
    exact Or.inl rfl
  | succ fuel ih =>
    intro s hinv id
    by_cases hcan : s.can_start_processing
    · have hcan' := hcan
      simp only [QueueManager.can_start_processing, Bool.and_eq_true,
        decide_eq_true_eq] at hcan'
      obtain ⟨hproc, hq0⟩ := hcan'
      cases hq : s.queue with
      | nil =>
        rw [hq] at hq0
        simp at hq0
      | cons hd rest =>
        by_cases hlist : s.queue_is_list
        · simp only [process_queue_aux]
          rw [if_pos hcan, get_next_item_err hq hlist]
          exact Or.inl rfl
        · have hlist' : s.queue_is_list = false := by simpa using hlist
          obtain ⟨hinv2, hstat2⟩ := promote_iter_spec now hinv hproc hq hlist'
          simp only [process_queue_aux]
          rw [if_pos hcan, get_next_item_cons hq hlist']
          have hhdq : status_of s hd = some "queued" := by
            have hflag : s.all_requests_is_list = false := by
              by_cases hf : s.all_requests_is_list
              · exact absurd ((hinv.flag_impl hf).1)
                  (fun h => Bool.noConfusion (h.symm.trans hlist'))
              · simpa using hf
            exact hinv.queue_status hflag hd (by rw [hq]; exact List.mem_cons_self _ _)
          rcases ih _ hinv2 id with hfin | ⟨hmid, hfin⟩
          · rw [hstat2 id] at hfin
            by_cases hid : id = hd
            · subst hid
              rw [if_pos rfl] at hfin
              exact Or.inr ⟨hhdq, hfin⟩
            · rw [if_neg hid] at hfin
              exact Or.inl hfin
          · rw [hstat2 id] at hmid
            by_cases hid : id = hd
            · subst hid
              rw [if_pos rfl] at hmid
              exact absurd (Option.some.inj hmid) (by decide)
            · rw [if_neg hid] at hmid
              exact Or.inr ⟨hmid, hfin⟩
    · simp only [process_queue_aux]
      rw [if_neg hcan]
      exact Or.inl rfl

theorem queue_process_queue_aux (fuel : Nat) (now : Int) :
    ∀ s : QueueManager, ∃ n, (process_queue_aux fuel s now).queue = s.queue.drop n := by
  induction fuel with
  | zero =>
    intro s
    exact ⟨0, rfl⟩
  | succ fuel ih =>
    intro s
    by_cases hcan : s.can_start_processing
    · have hcan' := hcan
      simp only [QueueManager.can_start_processing, Bool.and_eq_true,
        decide_eq_true_eq] at hcan'
      cases hq : s.queue with
      | nil =>
        rw [hq] at hcan'
        simp at hcan'
      | cons hd rest =>
        by_cases hlist : s.queue_is_list
        · refine ⟨0, ?_⟩
          simp only [process_queue_aux]
          rw [if_pos hcan, get_next_item_err hq hlist, List.drop_zero]
          exact hq
        · have hlist' : s.queue_is_list = false := by simpa using hlist
          simp only [process_queue_aux]
          rw [if_pos hcan, get_next_item_cons hq hlist']
          obtain ⟨n, hn⟩ := ih ({ s with queue := rest }.start_processing hd now).2
          refine ⟨n + 1, ?_⟩
          rw [hn, start_processing_queue]
          rfl
    · refine ⟨0, ?_⟩
      simp only [process_queue_aux]
      rw [if_neg hcan, List.drop_zero]

theorem can_start_process_queue_aux_false (fuel : Nat) (now : Int) :
    ∀ s : QueueManager, s.queue_is_list = false → s.queue.length ≤ fuel →
      ¬ (process_queue_aux fuel s now).can_start_processing := by
  induction fuel with
  | zero =>
    intro s hlist hlen hcan
    simp only [process_queue_aux] at hcan
    simp only [QueueManager.can_start_processing, Bool.and_eq_true,
      decide_eq_true_eq] at hcan
    omega
  | succ fuel ih =>
    intro s hlist hlen
    by_cases hcan : s.can_start_processing
    · have hcan' := hcan
      simp only [QueueManager.can_start_processing, Bool.and_eq_true,
        decide_eq_true_eq] at hcan'
      cases hq : s.queue with
      | nil =>
        rw [hq] at hcan'
        simp at hcan'
      | cons hd rest =>
        simp only [process_queue_aux]
        rw [if_pos hcan, get_next_item_cons hq hlist]
        apply ih
        · rw [start_processing_queue_is_list]
          exact hlist
        · rw [start_processing_queue]
          rw [hq] at hlen
          simp only [List.length_cons] at hlen
          show rest.length ≤ fuel
          omega
    · intro hfin
      simp only [process_queue_aux] at hfin
      rw [if_neg hcan] at hfin
      exact hcan hfin

theorem inv_complete_request {s : QueueManager} (id : String) (url : Option String)
    (now : Int) (hinv : StateInv s) : StateInv (s.complete_request id url now) := by
  by_cases hmem : id ∈ s.processing
  · have hflag : s.all_requests_is_list = false := by
      by_cases hf : s.all_requests_is_list
      · rw [(hinv.flag_impl hf).2.2] at hmem
        simp at hmem
      · simpa using hf
    have hst : status_of s id = some "processing" := hinv.proc_status id hmem
    obtain ⟨r, hr, hrstat⟩ :
        ∃ r, dict_lookup s.all_requests id = some r ∧ r.status = "processing" := by
      simpa [status_of, QueueManager.get_request_status, Option.map_eq_some'] using hst
    have hnotq : id ∉ s.queue := by
      intro hq2
      have h := hinv.queue_status hflag id hq2
      rw [hst] at h
      exact absurd (Option.some.inj h) (by decide)
    have hnotc : id ∉ s.completed := by
      intro hc
      have h := hinv.comp_status id hc
      rcases h with h | h <;>
        (rw [hst] at h; exact absurd (Option.some.inj h) (by decide))
    rw [complete_request_eq url now hmem hr]
    have hstatus : ∀ id2, status_of
        { s with
          processing := list_remove s.processing id,
          completed := list_insert s.completed id,
          all_requests := dict_set s.all_requests id
            { r with
              status := "completed", completed_at := some now,
              result_url := url } } id2 =
        if id2 = id then some "completed" else status_of s id2 := by
      intro id2
      by_cases hid : id2 = id
      · subst hid
        simp [status_of, QueueManager.get_request_status, dict_lookup_dict_set_self]
      · simp [status_of, QueueManager.get_request_status,
          dict_lookup_dict_set_ne _ _ hid, hid]
    refine ⟨hinv.queue_le, hinv.queue_nodup, ?_, ?_, ?_, ?_, ?_, ?_, ?_⟩
    · show (list_remove s.processing id).length ≤ s.max_concurrent
      exact (length_list_remove_le _ _).trans hinv.proc_le
    · exact nodup_list_remove hinv.proc_nodup _
    · exact nodup_list_insert hinv.comp_nodup _
    · intro hf
      have hc : s.all_requests_is_list = true := hf
      rw [hflag] at hc
      exact Bool.noConfusion hc
    · intro _ id2 hid2
      have hne : id2 ≠ id := fun e => hnotq (e ▸ hid2)
      rw [hstatus id2, if_neg hne]
      exact hinv.queue_status hflag id2 hid2
    · intro id2 hid2
      by_cases hid : id2 = id
      · subst hid
        exact absurd hid2 (not_mem_list_remove_self hinv.proc_nodup _)
      · rw [hstatus id2, if_neg hid]
        exact hinv.proc_status id2 ((mem_list_remove_of_ne hid).mp hid2)
    · intro id2 hid2
      rw [hstatus id2]
      by_cases hid : id2 = id
      · subst hid
        rw [if_pos rfl]
        exact Or.inl rfl
      · rw [if_neg hid]
        rcases mem_list_insert.mp hid2 with h | h
        · exact hinv.comp_status id2 h
        · exact absurd h hid
  · rw [complete_request_not_mem url now hmem]
    exact hinv

theorem inv_fail_request {s : QueueManager} (id err : String) (now : Int)
    (hinv : StateInv s) : StateInv (s.fail_request id err now) := by
  by_cases hmem : id ∈ s.processing
  · have hflag : s.all_requests_is_list = false := by
      by_cases hf : s.all_requests_is_list
      · rw [(hinv.flag_impl hf).2.2] at hmem
        simp at hmem
      · simpa using hf
    have hst : status_of s id = some "processing" := hinv.proc_status id hmem
    obtain ⟨r, hr, hrstat⟩ :
        ∃ r, dict_lookup s.all_requests id = some r ∧ r.status = "processing" := by
      simpa [status_of, QueueManager.get_request_status, Option.map_eq_some'] using hst
    have hnotq : id ∉ s.queue := by
      intro hq2
      have h := hinv.queue_status hflag id hq2
      rw [hst] at h
      exact absurd (Option.some.inj h) (by decide)
    have hnotc : id ∉ s.completed := by
      intro hc
      have h := hinv.comp_status id hc
      rcases h with h | h <;>
        (rw [hst] at h; exact absurd (Option.some.inj h) (by decide))
    rw [fail_request_eq err now hmem hr]
    have hstatus : ∀ id2, status_of
        { s with
          processing := list_remove s.processing id,
          completed := list_insert s.completed id,
          all_requests := dict_set s.all_requests id
            { r with
              status := "failed", error := some err, failed_at := some now } } id2 =
        if id2 = id then some "failed" else status_of s id2 := by
      intro id2
      by_cases hid : id2 = id
      · subst hid
        simp [status_of, QueueManager.get_request_status, dict_lookup_dict_set_self]
      · simp [status_of, QueueManager.get_request_status,
          dict_lookup_dict_set_ne _ _ hid, hid]
    refine ⟨hinv.queue_le, hinv.queue_nodup, ?_, ?_, ?_, ?_, ?_, ?_, ?_⟩
    · show (list_remove s.processing id).length ≤ s.max_concurrent
      exact (length_list_remove_le _ _).trans hinv.proc_le
    · exact nodup_list_remove hinv.proc_nodup _
    · exact nodup_list_insert hinv.comp_nodup _
    · intro hf
      have hc : s.all_requests_is_list = true := hf
      rw [hflag] at hc
      exact Bool.noConfusion hc
    · intro _ id2 hid2
      have hne : id2 ≠ id := fun e => hnotq (e ▸ hid2)
      rw [hstatus id2, if_neg hne]
      exact hinv.queue_status hflag id2 hid2
    · intro id2 hid2
      by_cases hid : id2 = id
      · subst hid
        exact absurd hid2 (not_mem_list_remove_self hinv.proc_nodup _)
      · rw [hstatus id2, if_neg hid]
        exact hinv.proc_status id2 ((mem_list_remove_of_ne hid).mp hid2)
    · intro id2 hid2
      rw [hstatus id2]
      by_cases hid : id2 = id
      · subst hid
        rw [if_pos rfl]
        exact Or.inr rfl
      · rw [if_neg hid]
        rcases mem_list_insert.mp hid2 with h | h
        · exact hinv.comp_status id2 h
        · exact absurd h hid
  · rw [fail_request_not_mem err now hmem]
    exact hinv

theorem inv_update_request_status {s : QueueManager} (id msg : String) (now : Int)
    (hinv : StateInv s) (hid : id ∈ s.processing) :
    StateInv (s.update_request_status id "processing" msg now) := by
  have hflag : s.all_requests_is_list = false := by
    by_cases hf : s.all_requests_is_list
    · rw [(hinv.flag_impl hf).2.2] at hid
      simp at hid
    · simpa using hf
  have hst : status_of s id = some "processing" := hinv.proc_status id hid
  obtain ⟨r, hr, hrstat⟩ :
      ∃ r, dict_lookup s.all_requests id = some r ∧ r.status = "processing" := by
    simpa [status_of, QueueManager.get_request_status, Option.map_eq_some'] using hst
  rw [update_request_status_eq "processing" msg now hr]
  have hstatus : ∀ id2, status_of
      { s with
        all_requests := dict_set s.all_requests id
          { r with
            status := "processing", message := some msg,
            last_updated := some now } } id2 =
      if id2 = id then some "processing" else status_of s id2 := by
    intro id2
    by_cases hid' : id2 = id
    · subst hid'
      simp [status_of, QueueManager.get_request_status, dict_lookup_dict_set_self]
    · simp [status_of, QueueManager.get_request_status,
        dict_lookup_dict_set_ne _ _ hid', hid']
  refine ⟨hinv.queue_le, hinv.queue_nodup, hinv.proc_le, hinv.proc_nodup,
    hinv.comp_nodup, ?_, ?_, ?_, ?_⟩
  · intro hf
    have hc : s.all_requests_is_list = true := hf
    rw [hflag] at hc
    exact Bool.noConfusion hc
  · intro _ id2 hid2
    have hne : id2 ≠ id := by
      intro e
      rw [e] at hid2
      have h := hinv.queue_status hflag id hid2
      rw [hst] at h
      exact absurd (Option.some.inj h) (by decide)
    rw [hstatus id2, if_neg hne]
    exact hinv.queue_status hflag id2 hid2
  · intro id2 hid2
    rw [hstatus id2]
    by_cases hid' : id2 = id
    · subst hid'
      rw [if_pos rfl]
    · rw [if_neg hid']
      exact hinv.proc_status id2 hid2
  · intro id2 hid2
    rw [hstatus id2]
    have hne : id2 ≠ id := by
      intro e
      rw [e] at hid2
      have h := hinv.comp_status id hid2
      rcases h with h | h <;>
        (rw [hst] at h; exact absurd (Option.some.inj h) (by decide))
    rw [if_neg hne]
    exact hinv.comp_status id2 hid2

theorem inv_cleanup {s : QueueManager} (now age : Int) (hinv : StateInv s) :
    StateInv (s.cleanup_old_requests now age) := by
  have hsub : ∀ x, x ∈ cleanup_to_remove s now age → x ∈ s.completed :=
    fun x hx => (mem_cleanup_to_remove.mp hx).1
  refine ⟨hinv.queue_le, hinv.queue_nodup, hinv.proc_le, hinv.proc_nodup, ?_, ?_,
    ?_, ?_, ?_⟩
  · exact hinv.comp_nodup.filter _
  · intro hf
    obtain ⟨hql, hreg, hproc⟩ := hinv.flag_impl hf
    refine ⟨hql, ?_, hproc⟩
    simp [QueueManager.cleanup_old_requests, hreg]
  · intro hf id hid
    rw [cleanup_queue] at hid
    rw [status_of_cleanup]
    have hq := hinv.queue_status hf id hid
    have hnr : id ∉ cleanup_to_remove s now age := by
      intro hmem
      have hc := hsub id hmem
      have h := hinv.comp_status id hc
      rcases h with h | h <;>
        (rw [hq] at h; exact absurd (Option.some.inj h.symm) (by decide))
    rw [if_neg hnr]
    exact hq
  · intro id hid
    rw [cleanup_processing] at hid
    rw [status_of_cleanup]
    have hp := hinv.proc_status id hid
    have hnr : id ∉ cleanup_to_remove s now age := by
      intro hmem
      have hc := hsub id hmem
      have h := hinv.comp_status id hc
      rcases h with h | h <;>
        (rw [hp] at h; exact absurd (Option.some.inj h.symm) (by decide))
    rw [if_neg hnr]
    exact hp
  · intro id hid
    obtain ⟨hc, hnr⟩ := mem_cleanup_completed.mp hid
    rw [status_of_cleanup, if_neg hnr]
    exact hinv.comp_status id hc

theorem inv_remove {s : QueueManager} (id : String) (hinv : StateInv s) :
    StateInv (s.remove_request id).2 := by
  rw [remove_request_snd]
  refine ⟨?_, ?_, ?_, ?_, ?_, ?_, ?_, ?_, ?_⟩
  · show (s.queue.filter (fun x => x != id)).length ≤ s.max_queue_size
    exact (List.length_filter_le _ _).trans hinv.queue_le
  · exact hinv.queue_nodup.filter _
  · show (if id ∈ s.processing then list_remove s.processing id
        else s.processing).length ≤ s.max_concurrent
    split
    · exact (length_list_remove_le _ _).trans hinv.proc_le
    · exact hinv.proc_le
  · show (if id ∈ s.processing then list_remove s.processing id
        else s.processing).Nodup
    split
    · exact nodup_list_remove hinv.proc_nodup _
    · exact hinv.proc_nodup
  · show (if id ∈ s.completed then list_remove s.completed id
        else s.completed).Nodup
    split
    · exact nodup_list_remove hinv.comp_nodup _
    · exact hinv.comp_nodup
  · intro hf
    have hf0 : (if s.all_requests.isEmpty = true then true
        else s.all_requests_is_list) = true := hf
    refine ⟨rfl, ?_, ?_⟩
    · by_cases hemp : s.all_requests.isEmpty = true
      · exact List.isEmpty_iff.mp hemp
      · rw [if_neg hemp] at hf0
        exact (hinv.flag_impl hf0).2.1
    · have hpe : s.processing = [] := by
        by_cases hemp : s.all_requests.isEmpty = true
        · cases hp : s.processing with
          | nil => rfl
          | cons x xs =>
            have hx := hinv.proc_status x (by rw [hp]; exact List.mem_cons_self _ _)
            have hnil : s.all_requests = [] := List.isEmpty_iff.mp hemp
            simp [status_of, QueueManager.get_request_status, hnil, dict_lookup] at hx
        · rw [if_neg hemp] at hf0
          exact (hinv.flag_impl hf0).2.2
      rw [hpe]
      simp [list_remove]
  · intro hf id2 hid2
    have hf0 : (if s.all_requests.isEmpty = true then true
        else s.all_requests_is_list) = false := hf
    have hflag : s.all_requests_is_list = false := by
      by_cases hemp : s.all_requests.isEmpty = true
      · rw [if_pos hemp] at hf0
        exact absurd hf0 (by simp)
      · rw [if_neg hemp] at hf0
        exact hf0
    exact hinv.queue_status hflag id2 (List.mem_filter.mp hid2).1
  · intro id2 hid2
    by_cases hmem : id ∈ s.processing
    · rw [if_pos hmem] at hid2
      exact hinv.proc_status id2 (mem_of_mem_list_remove hid2)
    · rw [if_neg hmem] at hid2
      exact hinv.proc_status id2 hid2
  · intro id2 hid2
    by_cases hmem : id ∈ s.completed
    · rw [if_pos hmem] at hid2
      exact hinv.comp_status id2 (mem_of_mem_list_remove hid2)
    · rw [if_neg hmem] at hid2
      exact hinv.comp_status id2 hid2

theorem inv_init (mq mc : Nat) : StateInv (QueueManager.init mq mc) := by
  refine ⟨?_, ?_, ?_, ?_, ?_, ?_, ?_, ?_, ?_⟩ <;>
    simp [QueueManager.init, status_of, QueueManager.get_request_status, dict_lookup]

theorem step_inv {s s' : QueueManager} (hinv : StateInv s) (hstep : Step s s') :
    StateInv s' := by
  cases hstep with
  | submit item now fresh => exact inv_add_to_queue item now hinv fresh
  | promote now => exact inv_process_queue_aux s.queue.length now s hinv
  | complete id url now => exact inv_complete_request id url now hinv
  | fail id err now => exact inv_fail_request id err now hinv
  | progress id msg now hid => exact inv_update_request_status id msg now hinv hid
  | cleanup now age => exact inv_cleanup now age hinv
  | remove id => exact inv_remove id hinv

theorem reachable_inv {s : QueueManager} (h : Reachable s) : StateInv s := by
  induction h with
  | init mq mc => exact inv_init mq mc
  | step hr hstep ih => exact step_inv ih hstep

theorem complete_request_queue (s : QueueManager) (id : String) (url : Option String)
    (now : Int) : (s.complete_request id url now).queue = s.queue := by
  unfold QueueManager.complete_request
  split
  · split <;> rfl
  · rfl

theorem fail_request_queue (s : QueueManager) (id err : String) (now : Int) :
    (s.fail_request id err now).queue = s.queue := by
  unfold QueueManager.fail_request
  split
  · split <;> rfl
  · rfl

theorem update_request_status_queue (s : QueueManager) (id st msg : String) (now : Int) :
    (s.update_request_status id st msg now).queue = s.queue := by
  unfold QueueManager.update_request_status
  split <;> rfl

/-- A scheduling pass on a state whose queue has been rebound to a plain list
by remove_request mutates nothing: the first popleft raises AttributeError. -/
theorem process_queue_aux_corrupt (fuel : Nat) (now : Int) (s : QueueManager)
    (hlist : s.queue_is_list = true) : process_queue_aux fuel s now = s := by
  cases fuel with
  | zero => rfl
  | succ fuel =>
    simp only [process_queue_aux]
    by_cases hcan : s.can_start_processing
    · rw [if_pos hcan]
      have hq0 : 0 < s.queue.length := by
        have hc := hcan
        simp only [QueueManager.can_start_processing, Bool.and_eq_true,
          decide_eq_true_eq] at hc
        exact hc.2
      cases hq : s.queue with
      | nil =>
        rw [hq] at hq0
        simp at hq0
      | cons hd rest => rw [get_next_item_err hq hlist]
    · rw [if_neg hcan]

theorem process_queue_corrupt (s : QueueManager) (hlist : s.queue_is_list = true)
    (now : Int) : process_queue s now = s :=
  process_queue_aux_corrupt _ now s hlist

/-- A scheduling pass on a state where no promotion can start returns the
state unchanged, whatever its fuel. -/
theorem process_queue_aux_no_start (fuel : Nat) (s : QueueManager) (now : Int)
    (h : ¬ s.can_start_processing = true) : process_queue_aux fuel s now = s := by
  cases fuel with
  | zero => rfl
  | succ fuel =>
    simp only [process_queue_aux]
    rw [if_neg h]

theorem reachable_qm_full : Reachable qm_full :=
  Reachable.step (Reachable.init 1 1) (Step.submit _ item_a 0 (by decide))

theorem reachable_qm_a : Reachable qm_a :=
  Reachable.step (Reachable.init 20 3) (Step.submit _ item_a 0 (by decide))

theorem reachable_qm_ab : Reachable qm_ab :=
  Reachable.step reachable_qm_a (Step.submit _ item_b 0 (by decide))

theorem reachable_qm_run : Reachable qm_run :=
  Reachable.step reachable_qm_a (Step.promote _ 0)

theorem reachable_qm_run_b : Reachable qm_run_b :=
  Reachable.step reachable_qm_run (Step.submit _ item_b 0 (by decide))

theorem reachable_qm_run2 : Reachable qm_run2 :=
  Reachable.step reachable_qm_run_b (Step.promote _ 0)

theorem reachable_qm_done : Reachable qm_done :=
  Reachable.step reachable_qm_run2 (Step.complete _ "a" (some "/api/result/a") 3600)

theorem reachable_qm_rm_run : Reachable qm_rm_run :=
  Reachable.step reachable_qm_run (Step.remove _ "a")

theorem reachable_qm_rm_run_b : Reachable qm_rm_run_b :=
  Reachable.step reachable_qm_rm_run (Step.submit _ item_b 10 (by decide))

theorem reachable_qm_rm_done : Reachable qm_rm_done :=
  Reachable.step reachable_qm_done (Step.remove _ "a")

theorem reachable_qm_corrupt : Reachable qm_corrupt :=
  Reachable.step (Reachable.init 20 3) (Step.remove _ "zz")

theorem reachable_qm_corrupt_a : Reachable qm_corrupt_a :=
  Reachable.step reachable_qm_corrupt (Step.submit _ item_a 0 (by decide))

/-- C1: the Admission Queue invariant holds in every reachable state —
including the states remove_request leaves behind after its exception: the
queue never exceeds max_queue_size, identifiers are pairwise distinct, a
submission at capacity returns False and changes nothing, and any other
submission appends the identifier to the queue; while the registry is
intact the submission also returns True and records the job as queued. -/
theorem admission_queue_invariant {s : QueueManager} (h : Reachable s) :
    s.queue.length ≤ s.max_queue_size ∧ s.queue.Nodup ∧
      ∀ (item : Request) (now : Int),
        (s.max_queue_size ≤ s.queue.length →
          s.add_to_queue item now = (Except.ok false, s)) ∧
        (s.queue.length < s.max_queue_size →
          (s.add_to_queue item now).2.queue = s.queue ++ [item.request_id] ∧
          (s.all_requests_is_list = false →
            (s.add_to_queue item now).1 = Except.ok true ∧
            status_of (s.add_to_queue item now).2 item.request_id = some "queued")) := by
  have hinv := reachable_inv h
  refine ⟨hinv.queue_le, hinv.queue_nodup, ?_⟩
  intro item now
  constructor
  · intro hcap
    exact add_to_queue_reject item now hcap
  · intro hcap
    by_cases hflag : s.all_requests_is_list
    · rw [add_to_queue_corrupt item now hcap hflag]
      refine ⟨rfl, ?_⟩
      intro hf
      have hc : s.all_requests_is_list = true := hflag
      rw [hf] at hc
      exact Bool.noConfusion hc
    · have hflag2 : s.all_requests_is_list = false := by simpa using hflag
      rw [add_to_queue_accept item now hcap hflag2]
      refine ⟨rfl, fun _ => ⟨rfl, ?_⟩⟩
      simp [status_of, QueueManager.get_request_status, dict_lookup_dict_set_self]

/-- Witness for C1 at the reachable one-slot state whose queue is full:
the bound and uniqueness hold, and submitting job b is rejected with False
and mutates nothing. -/
theorem admission_queue_invariant_witness :
    qm_full.queue.length ≤ qm_full.max_queue_size ∧ qm_full.queue.Nodup ∧
    qm_full.add_to_queue item_b 1 = (Except.ok false, qm_full) := by
  obtain ⟨h1, h2, h3⟩ := admission_queue_invariant reachable_qm_full
  exact ⟨h1, h2, (h3 item_b 1).1 (by decide)⟩

/-- C2: the size half of the Concurrency Gate invariant holds in every
reachable state, but the membership-iff-status half is false of the code: in
the reachable state obtained by submitting job a, promoting it to running
and then calling the DELETE endpoint on it, remove_request has popped a from
the processing dict before raising, while the registry record it never
deletes still says processing — so a carries status processing while the
running set is empty. -/
theorem concurrency_gate_iff_violated :
    (∀ s : QueueManager, Reachable s → s.processing.length ≤ s.max_concurrent) ∧
    Reachable qm_rm_run ∧
    qm_rm_run.processing = [] ∧
    status_of qm_rm_run "a" = some "processing" :=
  ⟨fun _ h => (reachable_inv h).proc_le, reachable_qm_rm_run, by decide, by decide⟩

/-- C3: across every step of the full system from a reachable state — now
including remove_request and the corrupted states it creates — a record
status either stays unchanged, appears as queued, moves queued to
processing, moves processing to a terminal status, or is a terminal status
dropped by cleanup; no step revisits queued or leaves a terminal status. -/
theorem status_forward_only {s s2 : QueueManager} (hr : Reachable s) (hstep : Step s s2)
    (id : String) :
    status_of s2 id = status_of s id ∨
      (status_of s id = none ∧ status_of s2 id = some "queued") ∨
      (status_of s id = some "queued" ∧ status_of s2 id = some "processing") ∨
      (status_of s id = some "processing" ∧
        (status_of s2 id = some "completed" ∨ status_of s2 id = some "failed")) ∨
      ((status_of s id = some "completed" ∨ status_of s id = some "failed") ∧
        status_of s2 id = none) := by
  have hinv := reachable_inv hr
  cases hstep with
  | submit item now fresh =>
    by_cases hcap : s.max_queue_size ≤ s.queue.length
    · rw [add_to_queue_reject item now hcap]
      exact Or.inl rfl
    · have hcap2 : s.queue.length < s.max_queue_size := by omega
      by_cases hflag : s.all_requests_is_list
      · rw [add_to_queue_corrupt item now hcap2 hflag]
        exact Or.inl rfl
      · have hflag2 : s.all_requests_is_list = false := by simpa using hflag
        rw [add_to_queue_accept item now hcap2 hflag2]
        by_cases hid : id = item.request_id
        · subst hid
          refine Or.inr (Or.inl ⟨?_, ?_⟩)
          · simp [status_of, QueueManager.get_request_status, fresh.2]
          · simp [status_of, QueueManager.get_request_status, dict_lookup_dict_set_self]
        · refine Or.inl ?_
          simp [status_of, QueueManager.get_request_status,
            dict_lookup_dict_set_ne _ _ hid]
  | promote now =>
    rcases status_process_queue_aux s.queue.length now s hinv id with h | ⟨h1, h2⟩
    · exact Or.inl h
    · exact Or.inr (Or.inr (Or.inl ⟨h1, h2⟩))
  | complete cid url now =>
    by_cases hmem : cid ∈ s.processing
    · have hstc : status_of s cid = some "processing" := hinv.proc_status cid hmem
      obtain ⟨r, hrr, hrstat⟩ :
          ∃ r, dict_lookup s.all_requests cid = some r ∧ r.status = "processing" := by
        simpa [status_of, QueueManager.get_request_status, Option.map_eq_some']
          using hstc
      rw [complete_request_eq url now hmem hrr]
      by_cases hid : id = cid
      · subst hid
        refine Or.inr (Or.inr (Or.inr (Or.inl ⟨hstc, Or.inl ?_⟩)))
        simp [status_of, QueueManager.get_request_status, dict_lookup_dict_set_self]
      · refine Or.inl ?_
        simp [status_of, QueueManager.get_request_status,
          dict_lookup_dict_set_ne _ _ hid]
    · rw [complete_request_not_mem url now hmem]
      exact Or.inl rfl
  | fail fid err now =>
    by_cases hmem : fid ∈ s.processing
    · have hstc : status_of s fid = some "processing" := hinv.proc_status fid hmem
      obtain ⟨r, hrr, hrstat⟩ :
          ∃ r, dict_lookup s.all_requests fid = some r ∧ r.status = "processing" := by
        simpa [status_of, QueueManager.get_request_status, Option.map_eq_some']
          using hstc
      rw [fail_request_eq err now hmem hrr]
      by_cases hid : id = fid
      · subst hid
        refine Or.inr (Or.inr (Or.inr (Or.inl ⟨hstc, Or.inr ?_⟩)))
        simp [status_of, QueueManager.get_request_status, dict_lookup_dict_set_self]
      · refine Or.inl ?_
        simp [status_of, QueueManager.get_request_status,
          dict_lookup_dict_set_ne _ _ hid]
    · rw [fail_request_not_mem err now hmem]
      exact Or.inl rfl
  | progress pid msg now hpid =>
    have hstc : status_of s pid = some "processing" := hinv.proc_status pid hpid
    obtain ⟨r, hrr, hrstat⟩ :
        ∃ r, dict_lookup s.all_requests pid = some r ∧ r.status = "processing" := by
      simpa [status_of, QueueManager.get_request_status, Option.map_eq_some']
        using hstc
    rw [update_request_status_eq "processing" msg now hrr]
    by_cases hid : id = pid
    · subst hid
      refine Or.inl ?_
      rw [hstc]
      simp [status_of, QueueManager.get_request_status, dict_lookup_dict_set_self]
    · refine Or.inl ?_
      simp [status_of, QueueManager.get_request_status,
        dict_lookup_dict_set_ne _ _ hid]
  | cleanup now age =>
    by_cases hmem : id ∈ cleanup_to_remove s now age
    · have hc := (mem_cleanup_to_remove.mp hmem).1
      refine Or.inr (Or.inr (Or.inr (Or.inr ⟨hinv.comp_status id hc, ?_⟩)))
      rw [status_of_cleanup, if_pos hmem]
    · refine Or.inl ?_
      rw [status_of_cleanup, if_neg hmem]
  | remove rid =>
    exact Or.inl (status_of_remove s rid id)

/-- Witness for C3: completing running job a moves its status processing to
completed. -/
theorem status_forward_only_witness :
    status_of qm_done "a" = status_of qm_run2 "a" ∨
      (status_of qm_run2 "a" = none ∧ status_of qm_done "a" = some "queued") ∨
      (status_of qm_run2 "a" = some "queued" ∧
        status_of qm_done "a" = some "processing") ∨
      (status_of qm_run2 "a" = some "processing" ∧
        (status_of qm_done "a" = some "completed" ∨
          status_of qm_done "a" = some "failed")) ∨
      ((status_of qm_run2 "a" = some "completed" ∨
          status_of qm_run2 "a" = some "failed") ∧
        status_of qm_done "a" = none) :=
  status_forward_only reachable_qm_run2
    (Step.complete qm_run2 "a" (some "/api/result/a") 3600) "a"

/-- C4: FIFO ordering in every reachable state of the full system: a job
admitted before another still queued sits at a strictly smaller 1-based
position; the head of the queue has position 1 and is the job an uncorrupted
promotion pops; and every step — submission appends, promotion drops a
prefix, removal filters — preserves the relative order of jobs that remain
queued. -/
theorem fifo_ordering {s : QueueManager} (h : Reachable s) :
    (∀ a b, [a, b].Sublist s.queue →
      ∃ pa pb, s.get_queue_position a = some pa ∧
        s.get_queue_position b = some pb ∧ pa < pb) ∧
    (∀ hd rest, s.queue = hd :: rest →
      s.get_queue_position hd = some 1 ∧
      (s.queue_is_list = false → (s.get_next_item).1 = Except.ok (some hd))) ∧
    (∀ s2 a b, Step s s2 → [a, b].Sublist s.queue →
      a ∈ s2.queue → b ∈ s2.queue → [a, b].Sublist s2.queue) := by
  have hinv := reachable_inv h
  refine ⟨?_, ?_, ?_⟩
  · intro a b hab
    exact queue_position_aux_sublist_lt hinv.queue_nodup hab 0
  · intro hd rest hq
    constructor
    · show queue_position_aux s.queue hd 0 = some 1
      rw [hq]
      simp [queue_position_aux]
    · intro hlist
      rw [get_next_item_cons hq hlist]
  · intro s2 a b hstep hab ha hb
    cases hstep with
    | submit item now fresh =>
      by_cases hcap : s.max_queue_size ≤ s.queue.length
      · rw [add_to_queue_reject item now hcap]
        exact hab
      · have hcap2 : s.queue.length < s.max_queue_size := by omega
        by_cases hflag : s.all_requests_is_list
        · rw [add_to_queue_corrupt item now hcap2 hflag]
          exact hab.trans (List.sublist_append_left _ _)
        · have hflag2 : s.all_requests_is_list = false := by simpa using hflag
          rw [add_to_queue_accept item now hcap2 hflag2]
          exact hab.trans (List.sublist_append_left _ _)
    | promote now =>
      obtain ⟨n, hn⟩ := queue_process_queue_aux s.queue.length now s
      have ha2 : a ∈ s.queue.drop n := by
        rw [show (process_queue s now).queue = s.queue.drop n from hn] at ha
        exact ha
      have hres := sublist_pair_drop hinv.queue_nodup hab n ha2
      rw [show (process_queue s now).queue = s.queue.drop n from hn]
      exact hres
    | complete cid url now =>
      rw [complete_request_queue]
      exact hab
    | fail fid err now =>
      rw [fail_request_queue]
      exact hab
    | progress pid msg now hpid =>
      rw [update_request_status_queue]
      exact hab
    | cleanup now age =>
      rw [cleanup_queue]
      exact hab
    | remove rid =>
      rw [remove_request_queue] at ha hb ⊢
      have hpa : (a != rid) = true := (List.mem_filter.mp ha).2
      have hpb : (b != rid) = true := (List.mem_filter.mp hb).2
      have hfil : [a, b].filter (fun x => x != rid) = [a, b] := by
        simp [List.filter_cons, hpa, hpb]
      have h2 : List.Sublist ([a, b].filter (fun x => x != rid))
          (s.queue.filter (fun x => x != rid)) := hab.filter _
      rw [hfil] at h2
      exact h2

/-- Witness for C4 at the reachable two-job state: a precedes b, a has
position 1 and is the job get_next_item pops, and a cleanup step keeps the
pair in order. -/
theorem fifo_ordering_witness :
    (∃ pa pb, qm_ab.get_queue_position "a" = some pa ∧
      qm_ab.get_queue_position "b" = some pb ∧ pa < pb) ∧
    qm_ab.get_queue_position "a" = some 1 ∧
    (qm_ab.get_next_item).1 = Except.ok (some "a") ∧
    ["a", "b"].Sublist (qm_ab.cleanup_old_requests 7200 1).queue := by
  obtain ⟨h1, h2, h3⟩ := fifo_ordering reachable_qm_ab
  exact ⟨h1 "a" "b" (List.Sublist.refl _), (h2 "a" ["b"] (by decide)).1,
    (h2 "a" ["b"] (by decide)).2 (by decide),
    h3 (qm_ab.cleanup_old_requests 7200 1) "a" "b" (Step.cleanup qm_ab 7200 1)
      (List.Sublist.refl _) (by decide) (by decide)⟩

/-- C5 (code bug): remove_request raises on every call with a non-empty
registry — here on the running job a — instead of returning a bool: its last
line iterates the dict as if it yielded record dicts, but dict iteration
yields string keys, so indexing the key raises TypeError.  Before raising it
has already filtered the queue (rebinding it to a plain list) and popped a
from the processing dict, and the registry entry is never deleted.  The
claim that remove never raises and returns a bool is therefore violated by
the code on every existing identifier. -/
theorem remove_request_raises :
    "a" ∈ qm_run.processing ∧
    (qm_run.remove_request "a").1 =
      Except.error "TypeError: string indices must be integers" ∧
    (qm_run.remove_request "a").2.processing = [] ∧
    (qm_run.remove_request "a").2.all_requests = qm_run.all_requests :=
  ⟨by decide, rfl, by decide, by decide⟩

/-- Counterexample to C6: job a is queued, yet update_request_status changes
its record (status, message and last_updated), contradicting the claim that
records of non-running jobs are left unchanged. -/
theorem update_message_changes_queued_record :
    status_of qm_a "a" = some "queued" ∧
    qm_a.update_request_status "a" "processing" "hello" 5 ≠ qm_a ∧
    dict_lookup (qm_a.update_request_status "a" "processing" "hello" 5).all_requests "a" ≠
      dict_lookup qm_a.all_requests "a" :=
  ⟨by decide, by decide, by decide⟩

/-- C6 as amended: update_request_status updates the record of any identifier
present in the registry, whatever its current status — overwriting status and
message and refreshing last_updated, leaving all other records and the three
membership structures unchanged — and it is a no-op exactly when the
identifier is unknown. -/
theorem update_message_amended (s : QueueManager) (id st msg : String) (now : Int) :
    (dict_lookup s.all_requests id = none → s.update_request_status id st msg now = s) ∧
    (∀ r, dict_lookup s.all_requests id = some r →
      dict_lookup (s.update_request_status id st msg now).all_requests id =
        some { r with status := st, message := some msg, last_updated := some now } ∧
      (∀ id2, id2 ≠ id →
        dict_lookup (s.update_request_status id st msg now).all_requests id2 =
          dict_lookup s.all_requests id2) ∧
      (s.update_request_status id st msg now).queue = s.queue ∧
      (s.update_request_status id st msg now).processing = s.processing ∧
      (s.update_request_status id st msg now).completed = s.completed) := by
  constructor
  · intro h
    exact update_request_status_missing st msg now h
  · intro r hr
    rw [update_request_status_eq st msg now hr]
    refine ⟨dict_lookup_dict_set_self _ _ _, ?_, rfl, rfl, rfl⟩
    intro id2 h2
    exact dict_lookup_dict_set_ne _ _ h2

/-- Witness for the amended C6: updating the queued job a rewrites its
record as described. -/
theorem update_message_amended_witness :
    dict_lookup (qm_a.update_request_status "a" "processing" "hello" 5).all_requests "a" =
      some
        { request_id := "a", payload := "payload-a", status := "processing",
          queued_at := some 0, started_at := none, completed_at := none,
          failed_at := none, last_updated := some 5, message := some "hello",
          result_url := none, error := none } :=
  ((update_message_amended qm_a "a" "processing" "hello" 5).2
    { request_id := "a", payload := "payload-a", status := "queued",
      queued_at := some 0, started_at := none, completed_at := none,
      failed_at := none, last_updated := none, message := none,
      result_url := none, error := none } (by decide)).1

/-- C7 (code bug): the round-trip breaks in the reachable state left by a
remove: after submitting and promoting job a and calling the DELETE endpoint
on it, a new submission of job b succeeds (returns True, records b as
queued), but b can never reach running — the queue was rebound to a plain
list, so every scheduling pass raises AttributeError on popleft and returns
with the state unchanged, and complete_request can never fire for b. -/
theorem roundtrip_broken_after_remove :
    Reachable qm_rm_run_b ∧
    (qm_rm_run.add_to_queue item_b 10).1 = Except.ok true ∧
    status_of qm_rm_run_b "b" = some "queued" ∧
    (∀ now : Int, process_queue qm_rm_run_b now = qm_rm_run_b) ∧
    (qm_rm_run_b.get_next_item).1 =
      Except.error "AttributeError: list object has no attribute popleft" :=
  ⟨reachable_qm_rm_run_b, rfl, by decide,
    fun now => process_queue_corrupt qm_rm_run_b (by decide) now, rfl⟩

/-- C8 (code bug): cleanup does not remove exactly the stale terminal
records: in the reachable state where completed job a (finished at t=3600,
result recorded) was hit by the DELETE endpoint, a was popped from the
completed dict while its registry record survived; a cleanup at t=10800 with
a 1-hour retention — under which the spec requires the record, stale by an
hour, to be purged — iterates only the completed dict and leaves the
registry untouched, so the stale completed record persists forever. -/
theorem cleanup_misses_removed_terminal :
    Reachable qm_rm_done ∧
    dict_lookup qm_rm_done.all_requests "a" =
      some
        { request_id := "a", payload := "payload-a", status := "completed",
          queued_at := some 0, started_at := some 0, completed_at := some 3600,
          failed_at := none, last_updated := none, message := none,
          result_url := some "/api/result/a", error := none } ∧
    "a" ∉ qm_rm_done.completed ∧
    (qm_rm_done.cleanup_old_requests 10800 1).all_requests =
      qm_rm_done.all_requests ∧
    status_of (qm_rm_done.cleanup_old_requests 10800 1) "a" = some "completed" :=
  ⟨reachable_qm_rm_done, by decide, by decide, by decide, by decide⟩

/-- C9: the scheduling pass is idempotent — running process_queue on the
result of process_queue performs no further promotions: when the loop
stopped normally no slot is free or the queue is empty, and the re-run
re-checks exactly those conditions; when it stopped on the corrupted queue
the re-run raises the same AttributeError and changes nothing. -/
theorem try_promote_idempotent (s : QueueManager) (t t2 : Int) :
    process_queue (process_queue s t) t2 = process_queue s t := by
  by_cases hlist : s.queue_is_list
  · have hl : s.queue_is_list = true := hlist
    rw [process_queue_corrupt s hl t, process_queue_corrupt s hl t2]
  · have hl : s.queue_is_list = false := by simpa using hlist
    have hns := can_start_process_queue_aux_false s.queue.length t s hl (le_refl _)
    exact process_queue_aux_no_start _ _ t2 hns

/-- C10 (code bug): position is not absent for every non-queued identifier:
in the reachable state where a remove on an empty registry rebound the
registry to a plain list, a later submission appends a to the queue and then
raises before the registry write, so a is unknown to the registry (status
lookup yields nothing) yet get_queue_position reports position 1 and
get_estimated_wait_time reports a 3-minute wait. -/
theorem position_present_for_unknown_id :
    Reachable qm_corrupt_a ∧
    qm_corrupt_a.get_request_status "a" = none ∧
    qm_corrupt_a.get_queue_position "a" = some 1 ∧
    qm_corrupt_a.get_estimated_wait_time "a" = some "3 minutes" ∧
    (qm_corrupt.add_to_queue item_a 0).1 =
      Except.error "TypeError: list indices must be integers or slices, not str" :=
  ⟨reachable_qm_corrupt_a, by decide, by decide, by decide, rfl⟩
